import Mathlib

/-!
# Verification of the mini-OS shell kernel (`kernel/kernel.c`)

A shallow embedding of the in-memory fake filesystem shell from
`kernel/kernel.c`.  C strings (NUL-terminated byte arrays) are modelled as
`List Nat` of their byte values before the terminator; `uint32_t`
arithmetic is modelled on `Nat` with explicit `% 2^32` where the C code can
wrap.  The page allocator `kmalloc` lives outside this file's source tree
(`libc/mem.c`); it is passed in as an oracle `kalloc : Nat → Nat × Nat`
returning the (virtual, physical) address pair, with a returned virtual
address of `0` meaning allocation failure, exactly the condition
`if (!data)` tested by the C code.
-/

/-- `MAX_FILES` from kernel.c line 14. -/
def MAX_FILES : Nat := 16

/-- `MAX_NAME` from kernel.c line 15. -/
def MAX_NAME : Nat := 16

/-- `2^32`, the modulus of `uint32_t` arithmetic. -/
def U32 : Nat := 4294967296

/-- Byte value of the ASCII space character. -/
def SP : Nat := 32

/-- Convert a Lean string literal to the byte list of the corresponding
C string (the bytes before the NUL terminator).  All literals used in the
kernel are plain ASCII. -/
def cs (s : String) : List Nat := s.data.map Char.toNat

/-- `FsEntry` from kernel.c lines 17–24.  `name` holds the bytes of the
NUL-terminated name field, `size` and `alloc_bytes` and `phys` are
`uint32_t` values, `data` is the virtual address returned by `kmalloc`,
and `used` is the in-use flag. -/
structure FsEntry where
  name : List Nat
  size : Nat
  alloc_bytes : Nat
  data : Nat
  phys : Nat
  used : Bool
deriving DecidableEq

/-- A fully cleared slot: the state `cmd_del` leaves a slot in
(kernel.c lines 148–151), and the observable content of a fresh slot. -/
def emptyEntry : FsEntry := ⟨[], 0, 0, 0, 0, false⟩

/-- The directory table `g_dir`: a list of `MAX_FILES` slots. -/
abbrev Dir := List FsEntry

/-- `to_upper_inplace` on one byte (kernel.c line 33):
lowercase ASCII letters (97–122) are shifted to uppercase. -/
def toUpperByte (b : Nat) : Nat := if 97 ≤ b ∧ b ≤ 122 then b - 32 else b

/-- `to_upper_inplace` from kernel.c lines 32–34, as a map over the bytes
of the line. -/
def to_upper_inplace (s : List Nat) : List Nat := s.map toUpperByte

/-- Space test used by `next_token` / `cut_token`. -/
def isSpace (b : Nat) : Bool := b == SP

/-- `next_token` from kernel.c line 36: skip leading spaces; return the
rest of the string if non-empty, otherwise NULL (modelled as `none`).
A NULL argument is modelled by the empty list, on which the C function
also returns NULL. -/
def next_token (p : List Nat) : Option (List Nat) :=
  let q := p.dropWhile isSpace
  if q = [] then none else some q

/-- `cut_token` from kernel.c line 37: the first component is the token
(the bytes up to the first space or end of string, where the C code writes
the terminating NUL), the second is the rest after the space, or the
empty list when the token ran to the end of the string (where the C code
returns NULL). -/
def cut_token (p : List Nat) : List Nat × List Nat :=
  (p.takeWhile (fun b => !isSpace b), (p.dropWhile (fun b => !isSpace b)).drop 1)

/-- `copy_bounded` from kernel.c lines 40–44: copies at most
`maxlen - 1` bytes and NUL-terminates, i.e. truncates the source to
`maxlen - 1` bytes. -/
def copy_bounded (src : List Nat) (maxlen : Nat) : List Nat :=
  src.take (maxlen - 1)

/-- ASCII decimal digit test, `*s >= '0' && *s <= '9'` from kernel.c. -/
def isDigit (b : Nat) : Bool := 48 ≤ b && b ≤ 57

/-- `parse_uint` from kernel.c lines 55–60: skip leading spaces, then
accumulate `v = v*10 + digit` in `uint32_t` (wrapping modulo `2^32`) over
the longest leading digit run; parsing stops at the first non-digit, and
the result is `0` when there was no digit at all (the `any` flag). -/
def parse_uint (s : List Nat) : Nat :=
  let s1 := s.dropWhile isSpace
  let ds := s1.takeWhile isDigit
  ds.foldl (fun v b => (v * 10 + (b - 48)) % U32) 0

/-- `round_up_page` from kernel.c lines 63–66:
`(n + P - 1) & ~(P - 1)` in `uint32_t` with `P = 4096`.  The addition
wraps modulo `2^32`; masking with `~(P-1)` (a constant with the low 12
bits clear and bits 12–31 set) clears the low 12 bits of the 32-bit sum,
i.e. rounds it down to a multiple of 4096. -/
def round_up_page (n : Nat) : Nat :=
  ((n + 4095) % U32) / 4096 * 4096

/-- First index of an entry satisfying `p`, scanning from index 0 —
the linear search pattern of `fs_find` and of the free-slot loop in
`cmd_create` (`-1` / not-found is modelled as `none`). -/
def findIdxO {α : Type} (p : α → Bool) : List α → Option Nat
  | [] => none
  | e :: rest => if p e then some 0 else (findIdxO p rest).map (· + 1)

/-- `fs_find` from kernel.c lines 69–73: index of the first used slot
whose name equals `name`. -/
def fs_find (dir : Dir) (name : List Nat) : Option Nat :=
  findIdxO (fun e => e.used && decide (e.name = name)) dir

/-- The free-slot scan from kernel.c line 114:
first index with `!g_dir[i].used`. -/
def first_free (dir : Dir) : Option Nat :=
  findIdxO (fun e => !e.used) dir

/-- Write one slot of the directory (`g_dir[slot] = ...`). -/
def set_at : Dir → Nat → FsEntry → Dir
  | [], _, _ => []
  | _ :: rest, 0, x => x :: rest
  | e :: rest, i + 1, x => e :: set_at rest i x

/-- Overwrite only the `name` field of slot `i`
(`copy_bounded(g_dir[idx].name, newn, MAX_NAME)` in `cmd_rename`). -/
def rename_at : Dir → Nat → List Nat → Dir
  | [], _, _ => []
  | e :: rest, 0, n => ⟨n, e.size, e.alloc_bytes, e.data, e.phys, e.used⟩ :: rest
  | e :: rest, i + 1, n => e :: rename_at rest i n

/-- The C test `!arg || !*arg` on an optional argument string. -/
def nullOrEmpty : Option (List Nat) → Bool
  | none => true
  | some l => l.isEmpty

/-- `dec_to_ascii` from kernel.c lines 47–52: decimal digits of `v`.
The C version truncates at 15 digits, which never happens for the 32-bit
values it is applied to (at most 10 digits). -/
def dec_to_ascii (v : Nat) : List Nat := (Nat.toDigits 10 v).map Char.toNat

/-- Modelled from the spec: `hex_to_ascii` is one of the
"decimal/hex formatting helpers producing fixed-width ASCII
representations of unsigned integers" from the libc collaborator
(`libc/string.c`, not part of this source tree).  No claim inspects hex
output, only that some bytes are printed. -/
def hex_to_ascii (v : Nat) : List Nat := cs "0x" ++ (Nat.toDigits 16 v).map Char.toNat

/-- `cmd_list` output for one used entry (kernel.c lines 92–100),
as the flat byte stream of the successive `kprint` calls. -/
def entryLine (e : FsEntry) : List Nat :=
  cs "  " ++ e.name ++ cs "  size=" ++ dec_to_ascii e.size ++ cs "B alloc=" ++
    dec_to_ascii e.alloc_bytes ++ cs "B v@" ++ hex_to_ascii e.data ++
    cs " p@" ++ hex_to_ascii e.phys ++ cs "\n"

/-- `cmd_list` from kernel.c lines 88–102. -/
def cmd_list (dir : Dir) : List Nat :=
  cs "FILES:\n" ++ ((dir.filter (fun e => e.used)).map entryLine).flatten

/-- `cmd_create` from kernel.c lines 105–131.  Checks in source order:
usage, name length, duplicate, size, free slot, allocation; on success
populates the first free slot.  `kalloc` is the `kmalloc` oracle;
a returned virtual address `0` is the failure the C code tests with
`if (!data)`. -/
def cmd_create (kalloc : Nat → Nat × Nat) (dir : Dir) (a1 a2 : Option (List Nat)) :
    Dir × List Nat :=
  if nullOrEmpty a1 || nullOrEmpty a2 then (dir, cs "usage: CREATE <name> <size>\n")
  else if MAX_NAME ≤ (a1.getD []).length then (dir, cs "ERR: name too long\n")
  else if (fs_find dir (a1.getD [])).isSome then (dir, cs "ERR: exists\n")
  else if parse_uint (a2.getD []) = 0 then (dir, cs "ERR: size must be > 0\n")
  else
    match first_free dir with
    | none => (dir, cs "ERR: directory full\n")
    | some slot =>
      if (kalloc (round_up_page (parse_uint (a2.getD [])))).1 = 0 then
        (dir, cs "ERR: kmalloc failed\n")
      else
        (set_at dir slot
          ⟨copy_bounded (a1.getD []) MAX_NAME, parse_uint (a2.getD []),
            round_up_page (parse_uint (a2.getD [])),
            (kalloc (round_up_page (parse_uint (a2.getD [])))).1,
            (kalloc (round_up_page (parse_uint (a2.getD [])))).2, true⟩,
         cs "OK\n")

/-- `cmd_rename` from kernel.c lines 134–141. -/
def cmd_rename (dir : Dir) (a1 a2 : Option (List Nat)) : Dir × List Nat :=
  if nullOrEmpty a1 || nullOrEmpty a2 then (dir, cs "usage: RENAME <old> <new>\n")
  else if MAX_NAME ≤ (a2.getD []).length then (dir, cs "ERR: name too long\n")
  else
    match fs_find dir (a1.getD []) with
    | none => (dir, cs "ERR: not found\n")
    | some idx =>
      if (fs_find dir (a2.getD [])).isSome then (dir, cs "ERR: exists\n")
      else (rename_at dir idx (copy_bounded (a2.getD []) MAX_NAME), cs "OK\n")

/-- `cmd_del` from kernel.c lines 144–153: clears `used`, the name bytes
and all numeric fields of the found slot. -/
def cmd_del (dir : Dir) (a1 : Option (List Nat)) : Dir × List Nat :=
  if nullOrEmpty a1 then (dir, cs "usage: DEL <name>\n")
  else
    match fs_find dir (a1.getD []) with
    | none => (dir, cs "ERR: not found\n")
    | some idx => (set_at dir idx emptyEntry, cs "OK\n")

/-- The token split of kernel.c lines 194–198:
`cmd = next_token(p); p = cut_token(cmd); arg1 = next_token(p);
if (arg1) p = cut_token(arg1); arg2 = next_token(p);`.
Note `cut_token` is applied to `cmd` and `arg1` but never to `arg2`:
the second argument is the whole remainder of the line after its leading
spaces. -/
def parse_cmdline (input : List Nat) :
    Option (List Nat × Option (List Nat) × Option (List Nat)) :=
  match next_token input with
  | none => none
  | some q =>
    match next_token (cut_token q).2 with
    | none => some ((cut_token q).1, none, none)
    | some q1 =>
      some ((cut_token q).1, some (cut_token q1).1, next_token (cut_token q1).2)

/-- The dispatcher states of the shell: the directory plus whether the
`END` command has halted the machine. -/
structure State where
  dir : Dir
  halted : Bool
deriving DecidableEq

/-- The keyword dispatch of kernel.c lines 200–210. -/
def dispatch (kalloc : Nat → Nat × Nat) (dir : Dir) (c : List Nat)
    (a1 a2 : Option (List Nat)) : Dir × List Nat :=
  if c = cs "LIST" then (dir, cmd_list dir)
  else if c = cs "CREATE" then cmd_create kalloc dir a1 a2
  else if c = cs "RENAME" then cmd_rename dir a1 a2
  else if c = cs "DEL" then cmd_del dir a1
  else (dir, cs "Unknown command\n")

/-- `user_input` from kernel.c lines 172–213: uppercase the whole line,
handle the exact lines `END` (halt) and `PAGE` (diagnostic allocation),
otherwise tokenize and dispatch, re-printing the prompt.  The output is
the flat byte stream of all `kprint` calls made while processing the
line. -/
def user_input (kalloc : Nat → Nat × Nat) (st : State) (input : List Nat) :
    State × List Nat :=
  if to_upper_inplace input = cs "END" then (⟨st.dir, true⟩, cs "Stopping the CPU. Bye!\n")
  else if to_upper_inplace input = cs "PAGE" then
    (st, cs "Page: " ++ hex_to_ascii (kalloc 1000).1 ++ cs ", physical address: " ++
          hex_to_ascii (kalloc 1000).2 ++ cs "\n> ")
  else
    match parse_cmdline (to_upper_inplace input) with
    | none => (st, cs "> ")
    | some (c, a1, a2) =>
      (⟨(dispatch kalloc st.dir c a1 a2).1, st.halted⟩,
        (dispatch kalloc st.dir c a1 a2).2 ++ cs "> ")

/-- One line of the read-eval loop.  Modelled from the spec: after `END`
the processor is in a halted terminal state and "stops accepting further
input", so a halted machine ignores the line and prints nothing
(§4.4/§9 of the design: halt is a terminal state transition, no further
commands are processed). -/
def process_line (kalloc : Nat → Nat × Nat) (st : State) (input : List Nat) :
    State × List Nat :=
  if st.halted then (st, []) else user_input kalloc st input

/-- Run a list of input lines, concatenating the printed bytes. -/
def runLines (kalloc : Nat → Nat × Nat) (st : State) :
    List (List Nat) → State × List Nat
  | [] => (st, [])
  | l :: ls =>
    ((runLines kalloc (process_line kalloc st l).1 ls).1,
      (process_line kalloc st l).2 ++ (runLines kalloc (process_line kalloc st l).1 ls).2)

/-- `fs_init` (kernel.c lines 76–84) allocates the 16-slot table and
clears only the `used` flags; the other fields of a fresh slot are
whatever `kmalloc` returned.  A state is reachable when it arises from
some such initial directory by processing any sequence of lines, with an
arbitrary allocator behaviour at each step. -/
inductive Reachable : State → Prop where
  | init : ∀ dir0 : Dir, dir0.length = MAX_FILES → (∀ e ∈ dir0, e.used = false) →
      Reachable ⟨dir0, false⟩
  | step : ∀ {st : State} (kalloc : Nat → Nat × Nat) (input : List Nat),
      Reachable st → Reachable (process_line kalloc st input).1

/-- The all-zero initial directory: the canonical instance of `fs_init`'s
postcondition, used for concrete executions. -/
def initState : State := ⟨List.replicate MAX_FILES emptyEntry, false⟩

/-- A concrete allocator oracle that always succeeds. -/
def kallocOK : Nat → Nat × Nat := fun _ => (4096, 8192)

/-- Split a byte stream into lines at newline bytes (10), for speaking
about "a line beginning with `ERR:`" in the printed output. -/
def splitLines : List Nat → List (List Nat)
  | [] => [[]]
  | b :: rest =>
    if b = 10 then [] :: splitLines rest
    else
      match splitLines rest with
      | [] => [[b]]
      | l :: ls => (b :: l) :: ls

/-- `pre` is an initial segment of `l`. -/
def startsWith : List Nat → List Nat → Bool
  | [], _ => true
  | _ :: _, [] => false
  | a :: as, b :: bs => a == b && startsWith as bs

/-- The three usage strings the commands print on missing arguments. -/
def usageMsgs : List (List Nat) :=
  [cs "usage: CREATE <name> <size>", cs "usage: RENAME <old> <new>", cs "usage: DEL <name>"]

/-- The printed output reports a domain error: some printed line is a
usage message or begins with `ERR:`. -/
def reportsDomainError (out : List Nat) : Bool :=
  (splitLines out).any (fun l => startsWith (cs "ERR:") l || usageMsgs.contains l)

/-- No byte of `l` is a lowercase ASCII letter. -/
def NoLower (l : List Nat) : Prop := ∀ b ∈ l, ¬(97 ≤ b ∧ b ≤ 122)

/-- What is always true of a used slot: positive 32-bit size, allocation
computed by `round_up_page`, and a non-empty uppercase name of fewer than
`MAX_NAME` bytes. -/
def GoodEntry (e : FsEntry) : Prop :=
  e.used = true →
    0 < e.size ∧ e.size < U32 ∧ e.alloc_bytes = round_up_page e.size ∧
    e.name ≠ [] ∧ e.name.length < MAX_NAME ∧ NoLower e.name

/-- No two distinct used slots carry the same name. -/
def UniqueNames (dir : Dir) : Prop :=
  ∀ (i j : Nat) (hi : i < dir.length) (hj : j < dir.length), i ≠ j →
    (dir.get ⟨i, hi⟩).used = true → (dir.get ⟨j, hj⟩).used = true →
    (dir.get ⟨i, hi⟩).name ≠ (dir.get ⟨j, hj⟩).name

/-- The directory invariant: 16 slots, each used slot well formed, and
names unique among used slots. -/
def GoodDir (dir : Dir) : Prop :=
  dir.length = MAX_FILES ∧ (∀ e ∈ dir, GoodEntry e) ∧ UniqueNames dir

/-! ## Lemmas about the search and update helpers -/

theorem findIdxO_eq_none {α : Type} (p : α → Bool) :
    ∀ l : List α, findIdxO p l = none ↔ ∀ x ∈ l, p x = false := by
  intro l
  induction l with
  | nil => simp [findIdxO]
  | cons e rest ih =>
    by_cases h : p e = true
    · simp [findIdxO, h]
    · simp only [Bool.not_eq_true] at h
      simp [findIdxO, h, ih]

theorem findIdxO_eq_some {α : Type} (p : α → Bool) :
    ∀ (l : List α) (i : Nat), findIdxO p l = some i →
      ∃ h : i < l.length, p (l.get ⟨i, h⟩) = true ∧
        ∀ j (hj : j < l.length), j < i → p (l.get ⟨j, hj⟩) = false := by
  intro l
  induction l with
  | nil => intro i h; simp [findIdxO] at h
  | cons e rest ih =>
    intro i h
    by_cases hp : p e = true
    · simp only [findIdxO, hp, if_true] at h
      obtain rfl : (0 : Nat) = i := Option.some.inj h
      refine ⟨by simp, hp, ?_⟩
      intro j hj hj0
      omega
    · simp only [Bool.not_eq_true] at hp
      simp only [findIdxO, hp, Bool.false_eq_true, if_false] at h
      obtain ⟨i', hi', rfl⟩ := Option.map_eq_some'.1 h
      obtain ⟨hlt, hptrue, hmin⟩ := ih i' hi'
      refine ⟨by simpa using Nat.succ_lt_succ hlt, by simpa using hptrue, ?_⟩
      intro j hj hji
      match j, hj with
      | 0, _ => simpa using hp
      | k + 1, hj =>
        have hk : k < rest.length := by simpa using Nat.lt_of_succ_lt_succ hj
        have := hmin k hk (Nat.lt_of_succ_lt_succ hji)
        simpa using this

theorem set_at_length : ∀ (dir : Dir) (i : Nat) (x : FsEntry),
    (set_at dir i x).length = dir.length := by
  intro dir
  induction dir with
  | nil => intro i x; rfl
  | cons e rest ih =>
    intro i x
    cases i with
    | zero => rfl
    | succ j => simp [set_at, ih]

theorem rename_at_length : ∀ (dir : Dir) (i : Nat) (n : List Nat),
    (rename_at dir i n).length = dir.length := by
  intro dir
  induction dir with
  | nil => intro i n; rfl
  | cons e rest ih =>
    intro i n
    cases i with
    | zero => rfl
    | succ j => simp [rename_at, ih]

theorem set_at_get_eq : ∀ (dir : Dir) (j : Nat) (x : FsEntry)
    (h : j < (set_at dir j x).length), (set_at dir j x).get ⟨j, h⟩ = x := by
  intro dir
  induction dir with
  | nil => intro j x h; simp [set_at] at h
  | cons e rest ih =>
    intro j x h
    cases j with
    | zero => rfl
    | succ k => exact ih k x (by simpa [set_at] using h)

theorem set_at_get_ne : ∀ (dir : Dir) (j : Nat) (x : FsEntry) (i : Nat)
    (h : i < (set_at dir j x).length) (hne : i ≠ j) (h' : i < dir.length),
    (set_at dir j x).get ⟨i, h⟩ = dir.get ⟨i, h'⟩ := by
  intro dir
  induction dir with
  | nil => intro j x i h hne h'; simp at h'
  | cons e rest ih =>
    intro j x i h hne h'
    cases j with
    | zero =>
      cases i with
      | zero => exact absurd rfl hne
      | succ k => rfl
    | succ m =>
      cases i with
      | zero => rfl
      | succ k =>
        exact ih m x k (by simpa [set_at] using h) (fun hc => hne (by omega))
          (by simpa using h')

theorem set_at_mem : ∀ (dir : Dir) (j : Nat) (x : FsEntry),
    ∀ e ∈ set_at dir j x, e ∈ dir ∨ e = x := by
  intro dir
  induction dir with
  | nil => intro j x e he; simp [set_at] at he
  | cons e0 rest ih =>
    intro j x e he
    cases j with
    | zero =>
      rcases List.mem_cons.1 he with h | h
      · exact Or.inr h
      · exact Or.inl (List.mem_cons_of_mem _ h)
    | succ m =>
      rcases List.mem_cons.1 he with h | h
      · exact Or.inl (h ▸ List.mem_cons_self _ _)
      · rcases ih m x e h with h1 | h1
        · exact Or.inl (List.mem_cons_of_mem _ h1)
        · exact Or.inr h1

theorem rename_at_get_eq : ∀ (dir : Dir) (j : Nat) (n : List Nat)
    (h : j < (rename_at dir j n).length) (h' : j < dir.length),
    (rename_at dir j n).get ⟨j, h⟩ =
      ⟨n, (dir.get ⟨j, h'⟩).size, (dir.get ⟨j, h'⟩).alloc_bytes,
        (dir.get ⟨j, h'⟩).data, (dir.get ⟨j, h'⟩).phys, (dir.get ⟨j, h'⟩).used⟩ := by
  intro dir
  induction dir with
  | nil => intro j n h h'; simp at h'
  | cons e rest ih =>
    intro j n h h'
    cases j with
    | zero => rfl
    | succ k => exact ih k n (by simpa [rename_at] using h) (by simpa using h')

theorem rename_at_get_ne : ∀ (dir : Dir) (j : Nat) (n : List Nat) (i : Nat)
    (h : i < (rename_at dir j n).length) (hne : i ≠ j) (h' : i < dir.length),
    (rename_at dir j n).get ⟨i, h⟩ = dir.get ⟨i, h'⟩ := by
  intro dir
  induction dir with
  | nil => intro j n i h hne h'; simp at h'
  | cons e rest ih =>
    intro j n i h hne h'
    cases j with
    | zero =>
      cases i with
      | zero => exact absurd rfl hne
      | succ k => rfl
    | succ m =>
      cases i with
      | zero => rfl
      | succ k =>
        exact ih m n k (by simpa [rename_at] using h) (fun hc => hne (by omega))
          (by simpa using h')

theorem parse_uint_lt (s : List Nat) : parse_uint s < U32 := by
  have key : ∀ (ds : List Nat) (v : Nat), v < U32 →
      ds.foldl (fun v b => (v * 10 + (b - 48)) % U32) v < U32 := by
    intro ds
    induction ds with
    | nil => intro v hv; exact hv
    | cons d ds ih =>
      intro v hv
      exact ih _ (Nat.mod_lt _ (by decide))
  exact key _ 0 (by decide)

/-! ## Corollaries about `fs_find` and `first_free` -/

theorem fs_find_eq_none_iff (dir : Dir) (name : List Nat) :
    fs_find dir name = none ↔ ∀ e ∈ dir, e.used = true → e.name ≠ name := by
  unfold fs_find
  rw [findIdxO_eq_none]
  constructor
  · intro h e he hu
    have := h e he
    simp [hu] at this
    exact this
  · intro h e he
    by_cases hu : e.used = true
    · simp [hu, h e he hu]
    · simp only [Bool.not_eq_true] at hu
      simp [hu]

theorem fs_find_eq_some_prop (dir : Dir) (name : List Nat) (i : Nat)
    (h : fs_find dir name = some i) :
    ∃ hi : i < dir.length, (dir.get ⟨i, hi⟩).used = true ∧ (dir.get ⟨i, hi⟩).name = name := by
  obtain ⟨hi, hp, _⟩ := findIdxO_eq_some _ dir i h
  simp only [Bool.and_eq_true, decide_eq_true_eq] at hp
  exact ⟨hi, hp.1, hp.2⟩

theorem first_free_eq_none_iff (dir : Dir) :
    first_free dir = none ↔ ∀ e ∈ dir, e.used = true := by
  unfold first_free
  rw [findIdxO_eq_none]
  constructor
  · intro h e he
    have := h e he
    simpa using this
  · intro h e he
    simp [h e he]

theorem first_free_eq_some_prop (dir : Dir) (j : Nat) (h : first_free dir = some j) :
    ∃ hj : j < dir.length, (dir.get ⟨j, hj⟩).used = false ∧
      ∀ i (hi : i < dir.length), i < j → (dir.get ⟨i, hi⟩).used = true := by
  obtain ⟨hj, hp, hmin⟩ := findIdxO_eq_some _ dir j h
  refine ⟨hj, by simpa using hp, ?_⟩
  intro i hi hij
  have := hmin i hi hij
  simpa using this

/-! ## Uppercase bytes and token provenance -/

theorem noLower_to_upper (l : List Nat) : NoLower (to_upper_inplace l) := by
  intro b hb
  obtain ⟨a, _, rfl⟩ := List.mem_map.1 hb
  unfold toUpperByte
  split <;> omega

theorem noLower_subset {l₁ l₂ : List Nat} (h : l₁ ⊆ l₂) (h2 : NoLower l₂) : NoLower l₁ :=
  fun b hb => h2 b (h hb)

theorem next_token_subset {p q : List Nat} (h : next_token p = some q) : q ⊆ p := by
  unfold next_token at h
  by_cases hq : p.dropWhile isSpace = []
  · simp [hq] at h
  · simp only [hq, if_false] at h
    obtain rfl := Option.some.inj h
    exact (List.dropWhile_sublist _).subset

theorem cut_token_fst_subset (p : List Nat) : (cut_token p).1 ⊆ p :=
  (List.takeWhile_sublist _).subset

theorem cut_token_snd_subset (p : List Nat) : (cut_token p).2 ⊆ p :=
  ((List.drop_sublist _ _).trans (List.dropWhile_sublist _)).subset

theorem parse_cmdline_tokens_subset (u : List Nat) (c : List Nat)
    (a1 a2 : Option (List Nat)) (h : parse_cmdline u = some (c, a1, a2)) :
    c ⊆ u ∧ (∀ x, a1 = some x → x ⊆ u) ∧ (∀ x, a2 = some x → x ⊆ u) := by
  unfold parse_cmdline at h
  split at h
  · exact absurd h (by simp)
  · rename_i q h0
    have hqu : q ⊆ u := next_token_subset h0
    split at h
    · rename_i h1
      obtain ⟨rfl, rfl, rfl⟩ : (cut_token q).1 = c ∧ none = a1 ∧ none = a2 := by
        have := Option.some.inj h
        exact ⟨congrArg Prod.fst this, congrArg (fun t => t.2.1) this,
          congrArg (fun t => t.2.2) this⟩
      refine ⟨fun b hb => hqu (cut_token_fst_subset q hb), ?_, ?_⟩
      · intro x hx; cases hx
      · intro x hx; cases hx
    · rename_i q1 h1
      obtain ⟨rfl, rfl, rfl⟩ :
          (cut_token q).1 = c ∧ some (cut_token q1).1 = a1 ∧
            next_token (cut_token q1).2 = a2 := by
        have := Option.some.inj h
        exact ⟨congrArg Prod.fst this, congrArg (fun t => t.2.1) this,
          congrArg (fun t => t.2.2) this⟩
      have hq1 : q1 ⊆ u := fun b hb =>
        hqu (cut_token_snd_subset q (next_token_subset h1 hb))
      refine ⟨fun b hb => hqu (cut_token_fst_subset q hb), ?_, ?_⟩
      · intro x hx
        obtain rfl := Option.some.inj hx
        exact fun b hb => hq1 (cut_token_fst_subset q1 hb)
      · intro x hx
        exact fun b hb => hq1 (cut_token_snd_subset q1 (next_token_subset hx hb))

theorem nullOrEmpty_false {a : Option (List Nat)} (h : nullOrEmpty a = false) :
    a = some (a.getD []) ∧ a.getD [] ≠ [] := by
  cases a with
  | none => simp [nullOrEmpty] at h
  | some l =>
    cases l with
    | nil => simp [nullOrEmpty] at h
    | cons b bs => simp

theorem copy_bounded_short {l : List Nat} (h : l.length < MAX_NAME) :
    copy_bounded l MAX_NAME = l :=
  List.take_of_length_le (by show l.length ≤ 15; unfold MAX_NAME at h; omega)

/-! ## The directory invariant -/

theorem gooddir_set_create (dir : Dir) (slot : Nat) (name : List Nat) (req d p : Nat)
    (h : GoodDir dir) (hfind : fs_find dir name = none)
    (hnm : name ≠ []) (hlen : name.length < MAX_NAME) (hlow : NoLower name)
    (hreq : 0 < req) (hreqlt : req < U32) :
    GoodDir (set_at dir slot ⟨name, req, round_up_page req, d, p, true⟩) := by
  obtain ⟨hL, hE, hU⟩ := h
  refine ⟨(set_at_length dir slot _).trans hL, ?_, ?_⟩
  · intro e he
    rcases set_at_mem dir slot _ e he with h1 | h1
    · exact hE e h1
    · intro _
      rw [h1]
      exact ⟨hreq, hreqlt, rfl, hnm, hlen, hlow⟩
  · intro i j hi hj hij hui huj
    have hL' := set_at_length dir slot (⟨name, req, round_up_page req, d, p, true⟩ : FsEntry)
    have hi' : i < dir.length := hL' ▸ hi
    have hj' : j < dir.length := hL' ▸ hj
    have hother : ∀ (k : Nat) (hk : k < (set_at dir slot _).length) (hk' : k < dir.length),
        k ≠ slot →
        ((set_at dir slot ⟨name, req, round_up_page req, d, p, true⟩).get ⟨k, hk⟩).used = true →
        ((set_at dir slot ⟨name, req, round_up_page req, d, p, true⟩).get ⟨k, hk⟩).name ≠ name := by
      intro k hk hk' hkslot huk
      rw [set_at_get_ne dir slot _ k hk hkslot hk'] at huk ⊢
      exact (fs_find_eq_none_iff dir name).1 hfind _ (List.get_mem dir _ _) huk
    by_cases hi0 : i = slot
    · subst hi0
      rw [set_at_get_eq dir i _ hi]
      exact fun hcontra =>
        hother j hj hj' (fun hc => hij (hc ▸ rfl)) huj hcontra.symm
    · by_cases hj0 : j = slot
      · subst hj0
        rw [set_at_get_eq dir j _ hj]
        exact hother i hi hi' hi0 hui
      · rw [set_at_get_ne dir slot _ i hi hi0 hi', set_at_get_ne dir slot _ j hj hj0 hj'] at *
        exact hU i j hi' hj' hij hui huj

theorem gooddir_del (dir : Dir) (idx : Nat) (h : GoodDir dir) :
    GoodDir (set_at dir idx emptyEntry) := by
  obtain ⟨hL, hE, hU⟩ := h
  refine ⟨(set_at_length dir idx _).trans hL, ?_, ?_⟩
  · intro e he
    rcases set_at_mem dir idx _ e he with h1 | h1
    · exact hE e h1
    · intro hu
      rw [h1] at hu
      exact absurd hu (by simp [emptyEntry])
  · intro i j hi hj hij hui huj
    have hL' := set_at_length dir idx emptyEntry
    have hi' : i < dir.length := hL' ▸ hi
    have hj' : j < dir.length := hL' ▸ hj
    by_cases hi0 : i = idx
    · subst hi0
      rw [set_at_get_eq dir i _ hi] at hui
      exact absurd hui (by simp [emptyEntry])
    · by_cases hj0 : j = idx
      · subst hj0
        rw [set_at_get_eq dir j _ hj] at huj
        exact absurd huj (by simp [emptyEntry])
      · rw [set_at_get_ne dir idx _ i hi hi0 hi', set_at_get_ne dir idx _ j hj hj0 hj'] at *
        exact hU i j hi' hj' hij hui huj

theorem gooddir_rename (dir : Dir) (idx : Nat) (newn : List Nat)
    (h : GoodDir dir) (hfind : fs_find dir newn = none)
    (hnm : newn ≠ []) (hlen : newn.length < MAX_NAME) (hlow : NoLower newn) :
    GoodDir (rename_at dir idx newn) := by
  obtain ⟨hL, hE, hU⟩ := h
  refine ⟨(rename_at_length dir idx _).trans hL, ?_, ?_⟩
  · intro e he
    obtain ⟨⟨k, hk⟩, rfl⟩ := List.mem_iff_get.1 he
    by_cases hk0 : k = idx
    · subst hk0
      have hk' : k < dir.length := (rename_at_length dir k newn) ▸ hk
      rw [rename_at_get_eq dir k newn hk hk']
      intro hu
      simp only at hu
      obtain ⟨h1, h2, h3, _, _, _⟩ := hE (dir.get ⟨k, hk'⟩) (List.get_mem dir _ _) hu
      exact ⟨h1, h2, h3, hnm, hlen, hlow⟩
    · have hk' : k < dir.length := (rename_at_length dir idx newn) ▸ hk
      rw [rename_at_get_ne dir idx newn k hk hk0 hk']
      exact hE _ (List.get_mem dir _ _)
  · intro i j hi hj hij hui huj
    have hL' := rename_at_length dir idx newn
    have hi' : i < dir.length := hL' ▸ hi
    have hj' : j < dir.length := hL' ▸ hj
    have hother : ∀ (k : Nat) (hk : k < (rename_at dir idx newn).length)
        (hk' : k < dir.length), k ≠ idx →
        ((rename_at dir idx newn).get ⟨k, hk⟩).used = true →
        ((rename_at dir idx newn).get ⟨k, hk⟩).name ≠ newn := by
      intro k hk hk' hkidx huk
      rw [rename_at_get_ne dir idx newn k hk hkidx hk'] at huk ⊢
      exact (fs_find_eq_none_iff dir newn).1 hfind _ (List.get_mem dir _ _) huk
    by_cases hi0 : i = idx
    · subst hi0
      rw [rename_at_get_eq dir i newn hi hi']
      exact fun hcontra =>
        hother j hj hj' (fun hc => hij (hc ▸ rfl)) huj hcontra.symm
    · by_cases hj0 : j = idx
      · subst hj0
        rw [rename_at_get_eq dir j newn hj hj']
        exact hother i hi hi' hi0 hui
      · rw [rename_at_get_ne dir idx newn i hi hi0 hi',
          rename_at_get_ne dir idx newn j hj hj0 hj'] at *
        exact hU i j hi' hj' hij hui huj

theorem cmd_create_good (kalloc : Nat → Nat × Nat) (dir : Dir) (a1 a2 : Option (List Nat))
    (h : GoodDir dir) (hn : ∀ x, a1 = some x → NoLower x) :
    GoodDir (cmd_create kalloc dir a1 a2).1 := by
  unfold cmd_create
  split
  · exact h
  · rename_i hnull
    split
    · exact h
    · rename_i hlen
      split
      · exact h
      · rename_i hdup
        split
        · exact h
        · rename_i hsz
          split
          · exact h
          · rename_i slot hslot
            split
            · exact h
            · rename_i hk
              simp only [Bool.or_eq_true, not_or, Bool.not_eq_true] at hnull
              obtain ⟨ha1, hnm⟩ := nullOrEmpty_false hnull.1
              have hlenN : (a1.getD []).length < MAX_NAME := by omega
              have hfind : fs_find dir (a1.getD []) = none :=
                Option.not_isSome_iff_eq_none.1 hdup
              have hreq : 0 < parse_uint (a2.getD []) := Nat.pos_of_ne_zero hsz
              simp only [copy_bounded_short hlenN]
              exact gooddir_set_create dir slot (a1.getD []) _ _ _ h hfind hnm hlenN
                (hn _ ha1) hreq (parse_uint_lt _)

theorem cmd_rename_good (dir : Dir) (a1 a2 : Option (List Nat))
    (h : GoodDir dir) (hn : ∀ x, a2 = some x → NoLower x) :
    GoodDir (cmd_rename dir a1 a2).1 := by
  unfold cmd_rename
  split
  · exact h
  · rename_i hnull
    split
    · exact h
    · rename_i hlen
      split
      · exact h
      · rename_i idx hidx
        split
        · exact h
        · rename_i hdup
          simp only [Bool.or_eq_true, not_or, Bool.not_eq_true] at hnull
          obtain ⟨ha2, hnm⟩ := nullOrEmpty_false hnull.2
          have hlenN : (a2.getD []).length < MAX_NAME := by omega
          have hfind : fs_find dir (a2.getD []) = none :=
            Option.not_isSome_iff_eq_none.1 hdup
          simp only [copy_bounded_short hlenN]
          exact gooddir_rename dir idx (a2.getD []) h hfind hnm hlenN (hn _ ha2)

theorem cmd_del_good (dir : Dir) (a1 : Option (List Nat)) (h : GoodDir dir) :
    GoodDir (cmd_del dir a1).1 := by
  unfold cmd_del
  split
  · exact h
  · split
    · exact h
    · exact gooddir_del dir _ h

theorem dispatch_good (kalloc : Nat → Nat × Nat) (dir : Dir) (c : List Nat)
    (a1 a2 : Option (List Nat)) (h : GoodDir dir)
    (hn1 : ∀ x, a1 = some x → NoLower x) (hn2 : ∀ x, a2 = some x → NoLower x) :
    GoodDir (dispatch kalloc dir c a1 a2).1 := by
  unfold dispatch
  split
  · exact h
  · split
    · exact cmd_create_good kalloc dir a1 a2 h hn1
    · split
      · exact cmd_rename_good dir a1 a2 h hn2
      · split
        · exact cmd_del_good dir a1 h
        · exact h

theorem user_input_good (kalloc : Nat → Nat × Nat) (st : State) (input : List Nat)
    (h : GoodDir st.dir) : GoodDir (user_input kalloc st input).1.dir := by
  unfold user_input
  split
  · exact h
  · split
    · exact h
    · split
      · exact h
      · rename_i c a1 a2 hp
        have hlow := noLower_to_upper input
        obtain ⟨_, hs1, hs2⟩ := parse_cmdline_tokens_subset _ _ _ _ hp
        exact dispatch_good kalloc st.dir c a1 a2 h
          (fun x hx => noLower_subset (hs1 x hx) hlow)
          (fun x hx => noLower_subset (hs2 x hx) hlow)

theorem process_line_good (kalloc : Nat → Nat × Nat) (st : State) (input : List Nat)
    (h : GoodDir st.dir) : GoodDir (process_line kalloc st input).1.dir := by
  unfold process_line
  split
  · exact h
  · exact user_input_good kalloc st input h

/-- Every reachable state satisfies the directory invariant. -/
theorem reachable_good : ∀ st : State, Reachable st → GoodDir st.dir := by
  intro st h
  induction h with
  | init dir0 hlen hunused =>
    refine ⟨hlen, ?_, ?_⟩
    · intro e he hu
      rw [hunused e he] at hu
      cases hu
    · intro i j hi hj hij hui _
      have := hunused _ (List.get_mem dir0 i hi)
      rw [this] at hui
      cases hui
  | step kalloc input _ ih => exact process_line_good kalloc _ input ih

/-! ## A command changes the directory only when it prints `OK` -/

theorem cmd_create_change (kalloc : Nat → Nat × Nat) (dir : Dir)
    (a1 a2 : Option (List Nat)) :
    (cmd_create kalloc dir a1 a2).1 = dir ∨ (cmd_create kalloc dir a1 a2).2 = cs "OK\n" := by
  unfold cmd_create
  split
  · exact Or.inl rfl
  · split
    · exact Or.inl rfl
    · split
      · exact Or.inl rfl
      · split
        · exact Or.inl rfl
        · split
          · exact Or.inl rfl
          · split
            · exact Or.inl rfl
            · exact Or.inr rfl

theorem cmd_rename_change (dir : Dir) (a1 a2 : Option (List Nat)) :
    (cmd_rename dir a1 a2).1 = dir ∨ (cmd_rename dir a1 a2).2 = cs "OK\n" := by
  unfold cmd_rename
  split
  · exact Or.inl rfl
  · split
    · exact Or.inl rfl
    · split
      · exact Or.inl rfl
      · split
        · exact Or.inl rfl
        · exact Or.inr rfl

theorem cmd_del_change (dir : Dir) (a1 : Option (List Nat)) :
    (cmd_del dir a1).1 = dir ∨ (cmd_del dir a1).2 = cs "OK\n" := by
  unfold cmd_del
  split
  · exact Or.inl rfl
  · split
    · exact Or.inl rfl
    · exact Or.inr rfl

theorem dispatch_change (kalloc : Nat → Nat × Nat) (dir : Dir) (c : List Nat)
    (a1 a2 : Option (List Nat)) :
    (dispatch kalloc dir c a1 a2).1 = dir ∨ (dispatch kalloc dir c a1 a2).2 = cs "OK\n" := by
  unfold dispatch
  split
  · exact Or.inl rfl
  · split
    · exact cmd_create_change kalloc dir a1 a2
    · split
      · exact cmd_rename_change dir a1 a2
      · split
        · exact cmd_del_change dir a1
        · exact Or.inl rfl

theorem user_input_change (kalloc : Nat → Nat × Nat) (st : State) (input : List Nat) :
    (user_input kalloc st input).1.dir = st.dir ∨
      (user_input kalloc st input).2 = cs "OK\n> " := by
  unfold user_input
  split
  · exact Or.inl rfl
  · split
    · exact Or.inl rfl
    · split
      · exact Or.inl rfl
      · rename_i c a1 a2 _
        rcases dispatch_change kalloc st.dir c a1 a2 with h | h
        · exact Or.inl h
        · refine Or.inr ?_
          show (dispatch kalloc st.dir c a1 a2).2 ++ cs "> " = cs "OK\n> "
          rw [h]
          decide

theorem process_line_change (kalloc : Nat → Nat × Nat) (st : State) (input : List Nat) :
    (process_line kalloc st input).1.dir = st.dir ∨
      (process_line kalloc st input).2 = cs "OK\n> " := by
  unfold process_line
  split
  · exact Or.inl rfl
  · exact user_input_change kalloc st input

/-! ## Arithmetic facts about `round_up_page` -/

theorem round_up_page_mod (n : Nat) : round_up_page n % 4096 = 0 := by
  unfold round_up_page
  exact Nat.mul_mod_left _ 4096

theorem round_up_page_correct (n : Nat) (h0 : 0 < n) (hle : n + 4096 ≤ U32) :
    n ≤ round_up_page n ∧ ∀ m : Nat, m % 4096 = 0 → n ≤ m → round_up_page n ≤ m := by
  unfold round_up_page U32 at *
  have hmod : (n + 4095) % 4294967296 = n + 4095 := Nat.mod_eq_of_lt (by omega)
  rw [hmod]
  constructor
  · omega
  · intro m hm hnm
    omega

/-! ## The shape of a successful `CREATE` -/

theorem cmd_create_ok (kalloc : Nat → Nat × Nat) (dir : Dir) (name s : List Nat) (j : Nat)
    (hnm : name ≠ []) (hs : s ≠ []) (hlen : name.length < MAX_NAME)
    (hfind : fs_find dir name = none) (hreq : 0 < parse_uint s)
    (hff : first_free dir = some j)
    (hk : (kalloc (round_up_page (parse_uint s))).1 ≠ 0) :
    cmd_create kalloc dir (some name) (some s) =
      (set_at dir j ⟨name, parse_uint s, round_up_page (parse_uint s),
        (kalloc (round_up_page (parse_uint s))).1,
        (kalloc (round_up_page (parse_uint s))).2, true⟩, cs "OK\n") := by
  unfold cmd_create
  split
  · rename_i hcond
    exfalso
    simp only [Bool.or_eq_true] at hcond
    rcases hcond with hcond | hcond
    · exact hnm (by simpa [nullOrEmpty, List.isEmpty_iff] using hcond)
    · exact hs (by simpa [nullOrEmpty, List.isEmpty_iff] using hcond)
  · split
    · rename_i hcond
      exfalso
      simp only [Option.getD_some] at hcond
      omega
    · split
      · rename_i hcond
        exfalso
        simp only [Option.getD_some, hfind] at hcond
        exact absurd hcond (by simp)
      · split
        · rename_i hcond
          exfalso
          simp only [Option.getD_some] at hcond
          omega
        · split
          · rename_i hff'
            exfalso
            rw [hff] at hff'
            cases hff'
          · rename_i slot hslot
            rw [hff] at hslot
            obtain rfl : slot = j := (Option.some.inj hslot).symm
            split
            · rename_i hcond
              exfalso
              simp only [Option.getD_some] at hcond
              exact hk hcond
            · simp only [Option.getD_some, copy_bounded_short hlen]

/-! ## Tokenization lemmas -/

theorem dropWhile_space_append (sp l : List Nat) (h : ∀ b ∈ sp, b = SP) :
    (sp ++ l).dropWhile isSpace = l.dropWhile isSpace := by
  induction sp with
  | nil => rfl
  | cons b bs ih =>
    have hb : b = SP := h b (List.mem_cons_self b bs)
    simp only [List.cons_append, List.dropWhile_cons]
    rw [show isSpace b = true by simp [isSpace, hb]]
    simp only [if_true]
    exact ih (fun x hx => h x (List.mem_cons_of_mem _ hx))

theorem dropWhile_no_head (l : List Nat) (h : l.head? ≠ some SP) :
    l.dropWhile isSpace = l := by
  cases l with
  | nil => rfl
  | cons b bs =>
    have hb : b ≠ SP := fun hc => h (by simp [hc])
    simp [List.dropWhile_cons, isSpace, hb]

theorem next_token_space_prefix (sp l : List Nat) (hsp : ∀ b ∈ sp, b = SP)
    (hh : l.head? ≠ some SP) (hl : l ≠ []) : next_token (sp ++ l) = some l := by
  unfold next_token
  rw [dropWhile_space_append sp l hsp, dropWhile_no_head l hh]
  simp [hl]

theorem takeWhile_nospace_append (c l : List Nat) (hc : ∀ b ∈ c, b ≠ SP) :
    (c ++ SP :: l).takeWhile (fun b => !isSpace b) = c := by
  induction c with
  | nil =>
    simp only [List.nil_append, List.takeWhile_cons]
    rw [show (!isSpace SP) = false by simp [isSpace]]
    simp
  | cons b bs ih =>
    have hb : b ≠ SP := hc b (List.mem_cons_self b bs)
    simp only [List.cons_append, List.takeWhile_cons]
    rw [show (!isSpace b) = true by simp [isSpace, hb]]
    simp only [if_true]
    rw [ih (fun x hx => hc x (List.mem_cons_of_mem _ hx))]

theorem dropWhile_nospace_append (c l : List Nat) (hc : ∀ b ∈ c, b ≠ SP) :
    (c ++ SP :: l).dropWhile (fun b => !isSpace b) = SP :: l := by
  induction c with
  | nil =>
    simp only [List.nil_append, List.dropWhile_cons]
    rw [show (!isSpace SP) = false by simp [isSpace]]
    simp
  | cons b bs ih =>
    have hb : b ≠ SP := hc b (List.mem_cons_self b bs)
    simp only [List.cons_append, List.dropWhile_cons]
    rw [show (!isSpace b) = true by simp [isSpace, hb]]
    simp only [if_true]
    exact ih (fun x hx => hc x (List.mem_cons_of_mem _ hx))

theorem cut_token_split (c l : List Nat) (hc : ∀ b ∈ c, b ≠ SP) :
    cut_token (c ++ SP :: l) = (c, l) := by
  unfold cut_token
  rw [takeWhile_nospace_append c l hc, dropWhile_nospace_append c l hc]
  rfl

theorem parse_cmdline_split (sp1 s2 s3 c a r : List Nat)
    (h1 : ∀ b ∈ sp1, b = SP) (h2 : ∀ b ∈ s2, b = SP) (h3 : ∀ b ∈ s3, b = SP)
    (hc : c ≠ []) (hcs : ∀ b ∈ c, b ≠ SP)
    (ha : a ≠ []) (has : ∀ b ∈ a, b ≠ SP)
    (hr : r ≠ []) (hrh : r.head? ≠ some SP) :
    parse_cmdline (sp1 ++ c ++ SP :: (s2 ++ a ++ SP :: (s3 ++ r))) =
      some (c, some a, some r) := by
  have hin : sp1 ++ c ++ SP :: (s2 ++ a ++ SP :: (s3 ++ r)) =
      sp1 ++ (c ++ SP :: (s2 ++ (a ++ SP :: (s3 ++ r)))) := by
    simp [List.append_assoc]
  rw [hin]
  have hchead : (c ++ SP :: (s2 ++ (a ++ SP :: (s3 ++ r)))).head? ≠ some SP := by
    cases c with
    | nil => exact absurd rfl hc
    | cons b bs =>
      have hb : b ≠ SP := hcs b (List.mem_cons_self b bs)
      simpa using hb
  have hcne : c ++ SP :: (s2 ++ (a ++ SP :: (s3 ++ r))) ≠ [] := by
    cases c <;> simp
  have hnt1 : next_token (sp1 ++ (c ++ SP :: (s2 ++ (a ++ SP :: (s3 ++ r))))) =
      some (c ++ SP :: (s2 ++ (a ++ SP :: (s3 ++ r)))) :=
    next_token_space_prefix _ _ h1 hchead hcne
  have hcut1 : cut_token (c ++ SP :: (s2 ++ (a ++ SP :: (s3 ++ r)))) =
      (c, s2 ++ (a ++ SP :: (s3 ++ r))) := cut_token_split c _ hcs
  have hahead : (a ++ SP :: (s3 ++ r)).head? ≠ some SP := by
    cases a with
    | nil => exact absurd rfl ha
    | cons b bs =>
      have hb : b ≠ SP := has b (List.mem_cons_self b bs)
      simpa using hb
  have hane : a ++ SP :: (s3 ++ r) ≠ [] := by cases a <;> simp
  have hnt2 : next_token (s2 ++ (a ++ SP :: (s3 ++ r))) = some (a ++ SP :: (s3 ++ r)) :=
    next_token_space_prefix _ _ h2 hahead hane
  have hcut2 : cut_token (a ++ SP :: (s3 ++ r)) = (a, s3 ++ r) := cut_token_split a _ has
  have hnt3 : next_token (s3 ++ r) = some r := next_token_space_prefix s3 r h3 hrh hr
  simp only [parse_cmdline, hnt1, hcut1, hnt2, hcut2, hnt3]

/-! ## Case normalization and halting lemmas -/

theorem toUpperByte_idem (b : Nat) : toUpperByte (toUpperByte b) = toUpperByte b := by
  by_cases h : 97 ≤ b ∧ b ≤ 122
  · simp only [toUpperByte, if_pos h]
    rw [if_neg (by omega)]
  · simp only [toUpperByte, if_neg h]

theorem to_upper_idem (l : List Nat) :
    to_upper_inplace (to_upper_inplace l) = to_upper_inplace l := by
  induction l with
  | nil => rfl
  | cons b bs ih =>
    simp only [to_upper_inplace, List.map_cons] at ih ⊢
    rw [toUpperByte_idem, ih]

theorem user_input_upper (kalloc : Nat → Nat × Nat) (st : State) (l : List Nat) :
    user_input kalloc st (to_upper_inplace l) = user_input kalloc st l := by
  unfold user_input
  rw [to_upper_idem]

theorem process_line_upper (kalloc : Nat → Nat × Nat) (st : State) (l : List Nat) :
    process_line kalloc st (to_upper_inplace l) = process_line kalloc st l := by
  unfold process_line
  split
  · rfl
  · exact user_input_upper kalloc st l

theorem process_line_halted (kalloc : Nat → Nat × Nat) (st : State) (l : List Nat)
    (h : st.halted = true) : process_line kalloc st l = (st, []) := by
  unfold process_line
  rw [if_pos h]

theorem runLines_halted (kalloc : Nat → Nat × Nat) (st : State) (h : st.halted = true)
    (ls : List (List Nat)) : runLines kalloc st ls = (st, []) := by
  induction ls with
  | nil => rfl
  | cons l ls ih =>
    simp only [runLines, process_line_halted kalloc st l h, ih]
    rfl

theorem user_input_end (kalloc : Nat → Nat × Nat) (st : State) (l : List Nat)
    (h : to_upper_inplace l = cs "END") :
    user_input kalloc st l = (⟨st.dir, true⟩, cs "Stopping the CPU. Bye!\n") := by
  unfold user_input
  rw [if_pos h]

/-! ## Further command shape lemmas -/

theorem cmd_create_full (kalloc : Nat → Nat × Nat) (dir : Dir) (name s : List Nat)
    (hnm : name ≠ []) (hs : s ≠ []) (hlen : name.length < MAX_NAME)
    (hfind : fs_find dir name = none) (hreq : 0 < parse_uint s)
    (hall : ∀ e ∈ dir, e.used = true) :
    cmd_create kalloc dir (some name) (some s) = (dir, cs "ERR: directory full\n") := by
  unfold cmd_create
  split
  · rename_i hcond
    exfalso
    simp only [Bool.or_eq_true] at hcond
    rcases hcond with hcond | hcond
    · exact hnm (by simpa [nullOrEmpty, List.isEmpty_iff] using hcond)
    · exact hs (by simpa [nullOrEmpty, List.isEmpty_iff] using hcond)
  · split
    · rename_i hcond
      exfalso
      simp only [Option.getD_some] at hcond
      omega
    · split
      · rename_i hcond
        exfalso
        simp only [Option.getD_some, hfind] at hcond
        exact absurd hcond (by simp)
      · split
        · rename_i hcond
          exfalso
          simp only [Option.getD_some] at hcond
          omega
        · split
          · rfl
          · rename_i slot hslot
            exfalso
            rw [(first_free_eq_none_iff dir).2 hall] at hslot
            cases hslot

theorem cmd_del_gives_free (dir : Dir) (dn : List Nat) (dir1 : Dir)
    (h : cmd_del dir (some dn) = (dir1, cs "OK\n")) :
    ∃ j, first_free dir1 = some j := by
  unfold cmd_del at h
  split at h
  · have h2 : cs "usage: DEL <name>\n" = cs "OK\n" := congrArg Prod.snd h
    exact absurd h2 (by decide)
  · split at h
    · have h2 : cs "ERR: not found\n" = cs "OK\n" := congrArg Prod.snd h
      exact absurd h2 (by decide)
    · rename_i idx hidx
      obtain ⟨hi, _, _⟩ := fs_find_eq_some_prop dir _ idx hidx
      have hdir1 : dir1 = set_at dir idx emptyEntry := (congrArg Prod.fst h).symm
      subst hdir1
      cases hf : first_free (set_at dir idx emptyEntry) with
      | some j => exact ⟨j, rfl⟩
      | none =>
        exfalso
        have hall := (first_free_eq_none_iff _).1 hf
        have hidx' : idx < (set_at dir idx emptyEntry).length := by
          rw [set_at_length]; exact hi
        have hu := hall _ (List.get_mem _ idx hidx')
        rw [set_at_get_eq dir idx emptyEntry hidx'] at hu
        exact absurd hu (by simp [emptyEntry])

theorem dispatch_unknown (kalloc : Nat → Nat × Nat) (dir : Dir) (c : List Nat)
    (a1 a2 : Option (List Nat))
    (h1 : c ≠ cs "LIST") (h2 : c ≠ cs "CREATE") (h3 : c ≠ cs "RENAME") (h4 : c ≠ cs "DEL") :
    dispatch kalloc dir c a1 a2 = (dir, cs "Unknown command\n") := by
  unfold dispatch
  rw [if_neg h1, if_neg h2, if_neg h3, if_neg h4]

theorem user_input_keeps_halted (kalloc : Nat → Nat × Nat) (st : State) (l : List Nat)
    (hEND : to_upper_inplace l ≠ cs "END") :
    (user_input kalloc st l).1.halted = st.halted := by
  unfold user_input
  rw [if_neg hEND]
  split
  · rfl
  · split
    · rfl
    · rfl

/-! ## The claims -/

/-- C1 (amended).  For sizes `n` with `0 < n` and `n ≤ 2^32 - 4096`,
`round_up_page n` is the smallest multiple of 4096 that is `≥ n`
(a multiple of 4096, at least `n`, and below every such multiple), and in
every reachable state every active record has
`alloc_bytes = round_up_page size`, `alloc_bytes` a multiple of 4096, and
`alloc_bytes ≥ size` whenever `size ≤ 2^32 - 4096`.  The restriction to
`size + 4096 ≤ 2^32` is forced: for the 4095 sizes above it the 32-bit
computation `(n + 4095) & ~4095` wraps and yields `alloc_bytes = 0`. -/
theorem claim1_page_rounding :
    (∀ n : Nat, 0 < n → n + 4096 ≤ U32 →
      round_up_page n % 4096 = 0 ∧ n ≤ round_up_page n ∧
        ∀ m : Nat, m % 4096 = 0 → n ≤ m → round_up_page n ≤ m) ∧
    (∀ st : State, Reachable st → ∀ e ∈ st.dir, e.used = true →
      e.alloc_bytes = round_up_page e.size ∧ e.alloc_bytes % 4096 = 0 ∧
        (e.size + 4096 ≤ U32 → e.size ≤ e.alloc_bytes)) := by
  constructor
  · intro n h0 hle
    obtain ⟨h1, h2⟩ := round_up_page_correct n h0 hle
    exact ⟨round_up_page_mod n, h1, h2⟩
  · intro st hst e he hu
    obtain ⟨hpos, _, halloc, _, _, _⟩ := (reachable_good st hst).2.1 e he hu
    refine ⟨halloc, halloc ▸ round_up_page_mod e.size, ?_⟩
    intro hle
    exact halloc ▸ (round_up_page_correct e.size hpos hle).1

/-- C1 witness: instantiating the amended claim at size 5 gives
`round_up_page 5 = 4096` with minimality at `m = 4096`, and the record
created by `CREATE A 5` from the fresh directory satisfies the
invariant. -/
theorem claim1_page_rounding_witness :
    (round_up_page 5 % 4096 = 0 ∧ 5 ≤ round_up_page 5 ∧ round_up_page 5 ≤ 4096) ∧
    ((⟨cs "A", 5, 4096, 4096, 8192, true⟩ : FsEntry) ∈
        (process_line kallocOK initState (cs "CREATE A 5")).1.dir ∧
      4096 = round_up_page 5 ∧ (5 : Nat) ≤ 4096) := by
  obtain ⟨p1, p2⟩ := claim1_page_rounding
  obtain ⟨q1, q2, q3⟩ := p1 5 (by decide) (by decide)
  have hmem : (⟨cs "A", 5, 4096, 4096, 8192, true⟩ : FsEntry) ∈
      (process_line kallocOK initState (cs "CREATE A 5")).1.dir := by decide
  have hreach : Reachable (process_line kallocOK initState (cs "CREATE A 5")).1 :=
    Reachable.step kallocOK (cs "CREATE A 5")
      (Reachable.init (List.replicate MAX_FILES emptyEntry) (by decide) (by decide))
  obtain ⟨r1, _, r3⟩ := p2 _ hreach _ hmem rfl
  exact ⟨⟨q1, q2, q3 4096 (by decide) (by decide)⟩, hmem, r1, r3 (by decide)⟩

/-- C1 counterexample: the claim as stated quantifies over all 32-bit
sizes, but `CREATE A 4294967295` succeeds (with an always-succeeding
allocator) and produces a reachable state whose active record has
`alloc_bytes = 0 < size`, because `round_up_page` wraps: the claim's
invariant `alloc_bytes ≥ size` is false. -/
theorem claim1_counterexample :
    Reachable (process_line kallocOK initState (cs "CREATE A 4294967295")).1 ∧
    (process_line kallocOK initState (cs "CREATE A 4294967295")).2 = cs "OK\n> " ∧
    ∃ e ∈ (process_line kallocOK initState (cs "CREATE A 4294967295")).1.dir,
      e.used = true ∧ e.size = 4294967295 ∧ e.alloc_bytes = 0 ∧
        ¬ e.size ≤ e.alloc_bytes :=
  ⟨Reachable.step kallocOK (cs "CREATE A 4294967295")
      (Reachable.init (List.replicate MAX_FILES emptyEntry) (by decide) (by decide)),
    by decide, by decide⟩

/-- C2 (confirmed).  Whenever processing a line prints a domain error (a
usage message or a printed line beginning with `ERR:`), the directory
afterwards is exactly the directory before: every command either fully
succeeds (printing `OK`) or leaves every slot untouched. -/
theorem claim2_errors_preserve_directory (kalloc : Nat → Nat × Nat) (st : State)
    (input : List Nat)
    (h : reportsDomainError (process_line kalloc st input).2 = true) :
    (process_line kalloc st input).1.dir = st.dir := by
  rcases process_line_change kalloc st input with h1 | h1
  · exact h1
  · rw [h1] at h
    exact absurd h (by decide)

/-- C2 witness: `CREATE` with no arguments prints the usage message and
leaves the fresh directory unchanged. -/
theorem claim2_errors_preserve_directory_witness :
    reportsDomainError (process_line kallocOK initState (cs "CREATE")).2 = true ∧
    (process_line kallocOK initState (cs "CREATE")).1.dir = initState.dir :=
  ⟨by decide, claim2_errors_preserve_directory kallocOK initState (cs "CREATE") (by decide)⟩

/-- C3 (confirmed).  The directory is a table of `MAX_FILES = 16` slots in
every reachable state; a `CREATE` that passes all earlier checks fails
with `directory full` exactly when every slot is used; a successful
`CREATE` writes the free slot of lowest index (every smaller index is
used); and right after a successful `DEL`, a `CREATE` that passes the
name/size checks succeeds (the allocator permitting). -/
theorem claim3_capacity :
    (∀ st : State, Reachable st → st.dir.length = MAX_FILES) ∧
    (∀ (kalloc : Nat → Nat × Nat) (dir : Dir) (name s : List Nat),
      name ≠ [] → s ≠ [] → name.length < MAX_NAME → fs_find dir name = none →
      0 < parse_uint s → (∀ e ∈ dir, e.used = true) →
      cmd_create kalloc dir (some name) (some s) = (dir, cs "ERR: directory full\n")) ∧
    (∀ (kalloc : Nat → Nat × Nat) (dir : Dir) (name s : List Nat) (j : Nat),
      name ≠ [] → s ≠ [] → name.length < MAX_NAME → fs_find dir name = none →
      0 < parse_uint s → first_free dir = some j →
      (kalloc (round_up_page (parse_uint s))).1 ≠ 0 →
      (∀ i (hi : i < dir.length), i < j → (dir.get ⟨i, hi⟩).used = true) ∧
      cmd_create kalloc dir (some name) (some s) =
        (set_at dir j ⟨name, parse_uint s, round_up_page (parse_uint s),
          (kalloc (round_up_page (parse_uint s))).1,
          (kalloc (round_up_page (parse_uint s))).2, true⟩, cs "OK\n")) ∧
    (∀ (kalloc : Nat → Nat × Nat) (dir dir1 : Dir) (dn name s : List Nat),
      cmd_del dir (some dn) = (dir1, cs "OK\n") →
      name ≠ [] → s ≠ [] → name.length < MAX_NAME → fs_find dir1 name = none →
      0 < parse_uint s → (∀ n, (kalloc n).1 ≠ 0) →
      (cmd_create kalloc dir1 (some name) (some s)).2 = cs "OK\n") := by
  refine ⟨?_, ?_, ?_, ?_⟩
  · intro st hst
    exact (reachable_good st hst).1
  · intro kalloc dir name s hnm hs hlen hfind hreq hall
    exact cmd_create_full kalloc dir name s hnm hs hlen hfind hreq hall
  · intro kalloc dir name s j hnm hs hlen hfind hreq hff hk
    refine ⟨?_, cmd_create_ok kalloc dir name s j hnm hs hlen hfind hreq hff hk⟩
    intro i hi hij
    obtain ⟨_, _, hmin⟩ := first_free_eq_some_prop dir j hff
    exact hmin i hi hij
  · intro kalloc dir dir1 dn name s hdel hnm hs hlen hfind hreq hka
    obtain ⟨j, hff⟩ := cmd_del_gives_free dir dn dir1 hdel
    rw [cmd_create_ok kalloc dir1 name s j hnm hs hlen hfind hreq hff (hka _)]

/-- C3 witness: the fresh 16-slot directory has length 16; on a directory
of 16 used slots named `X`, `CREATE A 5` reports `directory full`; on the
fresh directory `CREATE A 5` fills slot 0; and after `DEL X` on the full
directory, `CREATE B 5` succeeds. -/
theorem claim3_capacity_witness :
    (List.replicate MAX_FILES emptyEntry : Dir).length = MAX_FILES ∧
    cmd_create kallocOK (List.replicate MAX_FILES ⟨cs "X", 1, 4096, 4096, 8192, true⟩)
        (some (cs "A")) (some (cs "5")) =
      (List.replicate MAX_FILES ⟨cs "X", 1, 4096, 4096, 8192, true⟩,
        cs "ERR: directory full\n") ∧
    cmd_create kallocOK (List.replicate MAX_FILES emptyEntry)
        (some (cs "A")) (some (cs "5")) =
      (set_at (List.replicate MAX_FILES emptyEntry) 0
        ⟨cs "A", 5, 4096, 4096, 8192, true⟩, cs "OK\n") ∧
    (cmd_create kallocOK
        (cmd_del (List.replicate MAX_FILES ⟨cs "X", 1, 4096, 4096, 8192, true⟩)
          (some (cs "X"))).1
        (some (cs "B")) (some (cs "5"))).2 = cs "OK\n" := by
  obtain ⟨p1, p2, p3, p4⟩ := claim3_capacity
  refine ⟨p1 initState (Reachable.init _ (by decide) (by decide)), ?_, ?_, ?_⟩
  · exact p2 kallocOK _ (cs "A") (cs "5") (by decide) (by decide) (by decide) (by decide)
      (by decide) (by decide)
  · exact (p3 kallocOK (List.replicate MAX_FILES emptyEntry) (cs "A") (cs "5") 0
      (by decide) (by decide) (by decide) (by decide) (by decide) (by decide) (by decide)).2
  · exact p4 kallocOK (List.replicate MAX_FILES ⟨cs "X", 1, 4096, 4096, 8192, true⟩)
      (cmd_del (List.replicate MAX_FILES ⟨cs "X", 1, 4096, 4096, 8192, true⟩)
        (some (cs "X"))).1
      (cs "X") (cs "B") (cs "5") (by decide) (by decide) (by decide)
      (by decide) (by decide) (by decide) (fun n => by simp [kallocOK])

/-- C4 (amended).  The name bound is `MAX_NAME = 16`, not 15: a `CREATE`
name or `RENAME` target name is accepted by the length check exactly when
its length is `< 16` (at most 15 bytes); names of length `≥ 16` fail with
`name too long` and leave the directory unchanged, while a name of length
15 passes the check. -/
theorem claim4_name_length :
    MAX_NAME = 16 ∧
    (∀ (kalloc : Nat → Nat × Nat) (dir : Dir) (name s : List Nat),
      name ≠ [] → s ≠ [] → MAX_NAME ≤ name.length →
      cmd_create kalloc dir (some name) (some s) = (dir, cs "ERR: name too long\n")) ∧
    (∀ (dir : Dir) (oldn newn : List Nat),
      oldn ≠ [] → newn ≠ [] → MAX_NAME ≤ newn.length →
      cmd_rename dir (some oldn) (some newn) = (dir, cs "ERR: name too long\n")) ∧
    (∀ (kalloc : Nat → Nat × Nat) (dir : Dir) (a1 a2 : Option (List Nat)),
      (a1.getD []).length < MAX_NAME →
      (cmd_create kalloc dir a1 a2).2 ≠ cs "ERR: name too long\n") ∧
    (∀ (dir : Dir) (a1 a2 : Option (List Nat)),
      (a2.getD []).length < MAX_NAME →
      (cmd_rename dir a1 a2).2 ≠ cs "ERR: name too long\n") := by
  refine ⟨rfl, ?_, ?_, ?_, ?_⟩
  · intro kalloc dir name s hnm hs hlen
    unfold cmd_create
    have h1 : (nullOrEmpty (some name) || nullOrEmpty (some s)) = false := by
      simp [nullOrEmpty, List.isEmpty_iff, hnm, hs]
    simp only [h1, Bool.false_eq_true, if_false, Option.getD_some]
    rw [if_pos hlen]
  · intro dir oldn newn hnm hs hlen
    unfold cmd_rename
    have h1 : (nullOrEmpty (some oldn) || nullOrEmpty (some newn)) = false := by
      simp [nullOrEmpty, List.isEmpty_iff, hnm, hs]
    simp only [h1, Bool.false_eq_true, if_false, Option.getD_some]
    rw [if_pos hlen]
  · intro kalloc dir a1 a2 hlen
    unfold cmd_create
    split
    · show cs "usage: CREATE <name> <size>\n" ≠ cs "ERR: name too long\n"
      decide
    · split
      · rename_i hcond
        omega
      · split
        · show cs "ERR: exists\n" ≠ cs "ERR: name too long\n"
          decide
        · split
          · show cs "ERR: size must be > 0\n" ≠ cs "ERR: name too long\n"
            decide
          · split
            · show cs "ERR: directory full\n" ≠ cs "ERR: name too long\n"
              decide
            · split
              · show cs "ERR: kmalloc failed\n" ≠ cs "ERR: name too long\n"
                decide
              · show cs "OK\n" ≠ cs "ERR: name too long\n"
                decide
  · intro dir a1 a2 hlen
    unfold cmd_rename
    split
    · show cs "usage: RENAME <old> <new>\n" ≠ cs "ERR: name too long\n"
      decide
    · split
      · rename_i hcond
        omega
      · split
        · show cs "ERR: not found\n" ≠ cs "ERR: name too long\n"
          decide
        · split
          · show cs "ERR: exists\n" ≠ cs "ERR: name too long\n"
            decide
          · show cs "OK\n" ≠ cs "ERR: name too long\n"
            decide

/-- C4 witness: a 16-byte name is rejected by `CREATE` and by `RENAME`,
and a 15-byte name passes the length check (on the fresh directory the
`CREATE` in fact succeeds). -/
theorem claim4_name_length_witness :
    cmd_create kallocOK (List.replicate MAX_FILES emptyEntry)
        (some (cs "AAAAAAAAAAAAAAAA")) (some (cs "5")) =
      (List.replicate MAX_FILES emptyEntry, cs "ERR: name too long\n") ∧
    cmd_rename (List.replicate MAX_FILES emptyEntry)
        (some (cs "A")) (some (cs "BBBBBBBBBBBBBBBB")) =
      (List.replicate MAX_FILES emptyEntry, cs "ERR: name too long\n") ∧
    (cmd_create kallocOK (List.replicate MAX_FILES emptyEntry)
        (some (cs "AAAAAAAAAAAAAAA")) (some (cs "5"))).2 ≠ cs "ERR: name too long\n" := by
  obtain ⟨_, p2, p3, p4, _⟩ := claim4_name_length
  exact ⟨p2 kallocOK _ _ _ (by decide) (by decide) (by decide),
    p3 _ (cs "A") _ (by decide) (by decide) (by decide),
    p4 kallocOK _ _ _ (by decide)⟩

/-- C4 counterexample: the claim says every name of length `≥ 15` fails
with `name too long`, but `MAX_NAME` is 16 and the 15-byte name
`AAAAAAAAAAAAAAA` is accepted: `CREATE AAAAAAAAAAAAAAA 5` on the fresh
directory prints `OK` and stores the full 15-byte name. -/
theorem claim4_counterexample :
    (cs "AAAAAAAAAAAAAAA").length = 15 ∧
    (process_line kallocOK initState (cs "CREATE AAAAAAAAAAAAAAA 5")).2 = cs "OK\n> " ∧
    ∃ e ∈ (process_line kallocOK initState (cs "CREATE AAAAAAAAAAAAAAA 5")).1.dir,
      e.used = true ∧ e.name = cs "AAAAAAAAAAAAAAA" := by
  decide

/-- C5 (amended).  The size check fails with `size must be > 0` exactly
when `parse_uint` returns 0; `parse_uint` reads the longest leading digit
run (after skipping leading spaces), ignores everything from the first
non-digit on, and accumulates modulo `2^32`.  Hence `0`, `000`, digitless
texts and digit strings whose value is a multiple of `2^32` fail, while
`12X` parses as 12 and is accepted. -/
theorem claim5_size_parse :
    (∀ (kalloc : Nat → Nat × Nat) (dir : Dir) (name s : List Nat),
      name ≠ [] → s ≠ [] → name.length < MAX_NAME → fs_find dir name = none →
      parse_uint s = 0 →
      cmd_create kalloc dir (some name) (some s) = (dir, cs "ERR: size must be > 0\n")) ∧
    (∀ (kalloc : Nat → Nat × Nat) (dir : Dir) (a1 : Option (List Nat)) (s : List Nat),
      parse_uint s ≠ 0 →
      (cmd_create kalloc dir a1 (some s)).2 ≠ cs "ERR: size must be > 0\n") ∧
    (parse_uint (cs "0") = 0 ∧ parse_uint (cs "000") = 0 ∧ parse_uint (cs "X9") = 0 ∧
      parse_uint (cs "12X") = 12 ∧ parse_uint (cs "4294967296") = 0) := by
  refine ⟨?_, ?_, by decide⟩
  · intro kalloc dir name s hnm hs hlen hfind hp
    unfold cmd_create
    have h1 : (nullOrEmpty (some name) || nullOrEmpty (some s)) = false := by
      simp [nullOrEmpty, List.isEmpty_iff, hnm, hs]
    simp only [h1, Bool.false_eq_true, if_false, Option.getD_some]
    rw [if_neg (by omega), if_neg (by simp [hfind]), if_pos hp]
  · intro kalloc dir a1 s hp
    unfold cmd_create
    split
    · show cs "usage: CREATE <name> <size>\n" ≠ cs "ERR: size must be > 0\n"
      decide
    · split
      · show cs "ERR: name too long\n" ≠ cs "ERR: size must be > 0\n"
        decide
      · split
        · show cs "ERR: exists\n" ≠ cs "ERR: size must be > 0\n"
          decide
        · split
          · rename_i hcond
            simp only [Option.getD_some] at hcond
            exact absurd hcond hp
          · split
            · show cs "ERR: directory full\n" ≠ cs "ERR: size must be > 0\n"
              decide
            · split
              · show cs "ERR: kmalloc failed\n" ≠ cs "ERR: size must be > 0\n"
                decide
              · show cs "OK\n" ≠ cs "ERR: size must be > 0\n"
                decide

/-- C5 witness: `CREATE A 0` on the fresh directory fails with
`size must be > 0` and leaves the directory unchanged, and `CREATE` with
size text `12X` never prints that message. -/
theorem claim5_size_parse_witness :
    cmd_create kallocOK (List.replicate MAX_FILES emptyEntry)
        (some (cs "A")) (some (cs "0")) =
      (List.replicate MAX_FILES emptyEntry, cs "ERR: size must be > 0\n") ∧
    (cmd_create kallocOK (List.replicate MAX_FILES emptyEntry)
        (some (cs "A")) (some (cs "12X"))).2 ≠ cs "ERR: size must be > 0\n" ∧
    parse_uint (cs "12X") = 12 := by
  obtain ⟨p1, p2, p3⟩ := claim5_size_parse
  exact ⟨p1 kallocOK _ _ _ (by decide) (by decide) (by decide) (by decide) (by decide),
    p2 kallocOK _ _ _ (by decide), p3.2.2.2.1⟩

/-- C5 counterexample: the claim says a non-numeric size text fails, but
`12X` is not a decimal integer and `CREATE A 12X` succeeds with size 12:
`parse_uint` ignores the trailing garbage. -/
theorem claim5_counterexample :
    parse_uint (cs "12X") = 12 ∧
    (process_line kallocOK initState (cs "CREATE A 12X")).2 = cs "OK\n> " ∧
    ∃ e ∈ (process_line kallocOK initState (cs "CREATE A 12X")).1.dir,
      e.used = true ∧ e.name = cs "A" ∧ e.size = 12 := by
  decide

/-- C6 (amended).  Tokenization skips leading spaces, and the command
keyword and the first argument each end at the next space; but `cut_token`
is never applied to the second argument, so the second argument is the
entire remainder of the line after its leading spaces and may itself
contain spaces: for any space-free non-empty tokens `c` and `a`, space
runs `sp1`, `s2`, `s3`, and any remainder `r` not starting with a space,
the line `sp1 ++ c ++ " " ++ s2 ++ a ++ " " ++ s3 ++ r` parses as command
`c`, first argument `a`, and second argument all of `r`.  In particular
`RENAME A B C` passes `B C`, not `B`, as the second argument. -/
theorem claim6_tokenization :
    (∀ sp1 s2 s3 c a r : List Nat,
      (∀ b ∈ sp1, b = SP) → (∀ b ∈ s2, b = SP) → (∀ b ∈ s3, b = SP) →
      c ≠ [] → (∀ b ∈ c, b ≠ SP) → a ≠ [] → (∀ b ∈ a, b ≠ SP) →
      r ≠ [] → r.head? ≠ some SP →
      parse_cmdline (sp1 ++ c ++ SP :: (s2 ++ a ++ SP :: (s3 ++ r))) =
        some (c, some a, some r)) ∧
    parse_cmdline (cs "RENAME A B C") = some (cs "RENAME", some (cs "A"), some (cs "B C")) := by
  refine ⟨?_, by decide⟩
  intro sp1 s2 s3 c a r h1 h2 h3 hc hcs ha has hr hrh
  exact parse_cmdline_split sp1 s2 s3 c a r h1 h2 h3 hc hcs ha has hr hrh

/-- C6 witness: instantiating the amended claim at `RENAME`/`A`/`B C`
with single-space separators reproduces the parse of `RENAME A B C`. -/
theorem claim6_tokenization_witness :
    parse_cmdline ([] ++ cs "RENAME" ++ SP :: ([] ++ cs "A" ++ SP :: ([] ++ cs "B C"))) =
      some (cs "RENAME", some (cs "A"), some (cs "B C")) :=
  claim6_tokenization.1 [] [] [] (cs "RENAME") (cs "A") (cs "B C")
    (by decide) (by decide) (by decide) (by decide) (by decide) (by decide) (by decide)
    (by decide) (by decide)

/-- C6 counterexample: the claim says the second argument of
`RENAME A B C` is the single token `B`; in fact the parser passes `B C`,
and with a file `A` present the rename stores the name `B C` (with an
embedded space) and prints `OK`. -/
theorem claim6_counterexample :
    parse_cmdline (cs "RENAME A B C") = some (cs "RENAME", some (cs "A"), some (cs "B C")) ∧
    cs "B C" ≠ cs "B" ∧
    (process_line kallocOK
        (process_line kallocOK initState (cs "CREATE A 5")).1 (cs "RENAME A B C")).2 =
      cs "OK\n> " ∧
    ∃ e ∈ (process_line kallocOK
        (process_line kallocOK initState (cs "CREATE A 5")).1 (cs "RENAME A B C")).1.dir,
      e.used = true ∧ e.name = cs "B C" := by
  decide

/-- C7 (confirmed).  Processing any line is identical to processing its
uppercased form (the whole line is normalized before any comparison or
tokenization), so `create foo 10` and `CREATE FOO 10` coincide, and in
every reachable state the name bytes of every active record contain no
lowercase ASCII letter. -/
theorem claim7_case_normalization :
    (∀ (kalloc : Nat → Nat × Nat) (st : State) (l : List Nat),
      process_line kalloc st (to_upper_inplace l) = process_line kalloc st l) ∧
    (∀ st : State, Reachable st → ∀ e ∈ st.dir, e.used = true → NoLower e.name) := by
  constructor
  · exact process_line_upper
  · intro st hst e he hu
    exact ((reachable_good st hst).2.1 e he hu).2.2.2.2.2

/-- C7 witness: `CREATE FOO 10` (the uppercased form of `create foo 10`)
and `create foo 10` produce the same state and output from the fresh
directory, and the record stored by the lowercase command carries the
uppercase name `FOO`. -/
theorem claim7_case_normalization_witness :
    process_line kallocOK initState (cs "CREATE FOO 10") =
      process_line kallocOK initState (cs "create foo 10") ∧
    NoLower (cs "FOO") ∧
    (⟨cs "FOO", 10, 4096, 4096, 8192, true⟩ : FsEntry) ∈
      (process_line kallocOK initState (cs "create foo 10")).1.dir := by
  have hup : cs "CREATE FOO 10" = to_upper_inplace (cs "create foo 10") := by decide
  have hmem : (⟨cs "FOO", 10, 4096, 4096, 8192, true⟩ : FsEntry) ∈
      (process_line kallocOK initState (cs "create foo 10")).1.dir := by decide
  refine ⟨hup ▸ claim7_case_normalization.1 kallocOK initState (cs "create foo 10"), ?_, hmem⟩
  exact claim7_case_normalization.2 _
    (Reachable.step kallocOK (cs "create foo 10")
      (Reachable.init (List.replicate MAX_FILES emptyEntry) (by decide) (by decide)))
    _ hmem rfl

/-- C8 (confirmed).  In every state reachable from an initial cleared
directory, no two distinct used slots carry equal names. -/
theorem claim8_name_uniqueness :
    ∀ st : State, Reachable st → UniqueNames st.dir :=
  fun st hst => (reachable_good st hst).2.2

/-- C8 witness: after `CREATE A 5` then `CREATE B 5` the two used slots
carry different names. -/
theorem claim8_name_uniqueness_witness :
    ((process_line kallocOK (process_line kallocOK initState (cs "CREATE A 5")).1
        (cs "CREATE B 5")).1.dir.get ⟨0, by decide⟩).name ≠
    ((process_line kallocOK (process_line kallocOK initState (cs "CREATE A 5")).1
        (cs "CREATE B 5")).1.dir.get ⟨1, by decide⟩).name :=
  claim8_name_uniqueness _
    (Reachable.step kallocOK (cs "CREATE B 5")
      (Reachable.step kallocOK (cs "CREATE A 5")
        (Reachable.init (List.replicate MAX_FILES emptyEntry) (by decide) (by decide))))
    0 1 (by decide) (by decide) (by decide) (by decide) (by decide)

/-- C9 (confirmed).  A non-halted machine that reads a line whose
uppercased form is exactly `END` prints the farewell message and moves to
the halted state; a halted machine processes no further lines: any
sequence of subsequent lines leaves the state unchanged and prints
nothing. -/
theorem claim9_halt :
    (∀ (kalloc : Nat → Nat × Nat) (st : State) (l : List Nat),
      st.halted = false → to_upper_inplace l = cs "END" →
      process_line kalloc st l = (⟨st.dir, true⟩, cs "Stopping the CPU. Bye!\n")) ∧
    (∀ (kalloc : Nat → Nat × Nat) (st : State) (ls : List (List Nat)),
      st.halted = true → runLines kalloc st ls = (st, [])) := by
  constructor
  · intro kalloc st l hh hl
    unfold process_line
    rw [if_neg (by simp [hh])]
    exact user_input_end kalloc st l hl
  · intro kalloc st ls hh
    exact runLines_halted kalloc st hh ls

/-- C9 witness: `end` halts the fresh machine with the farewell message,
and the halted machine ignores a subsequent `LIST`, `CREATE` and `DEL`. -/
theorem claim9_halt_witness :
    process_line kallocOK initState (cs "end") =
      (⟨initState.dir, true⟩, cs "Stopping the CPU. Bye!\n") ∧
    runLines kallocOK ⟨initState.dir, true⟩ [cs "LIST", cs "CREATE A 5", cs "DEL A"] =
      (⟨initState.dir, true⟩, []) :=
  ⟨claim9_halt.1 kallocOK initState (cs "end") rfl (by decide),
    claim9_halt.2 kallocOK ⟨initState.dir, true⟩ [cs "LIST", cs "CREATE A 5", cs "DEL A"] rfl⟩

/-- C10 (amended).  `END` and `PAGE` are recognized only when the whole
uppercased line equals the keyword: any other line leaves the machine
unhalted, and when such a line's first token is `END` or `PAGE` (leading
spaces or trailing text, as in ` END` or `END X`) the dispatcher has no
matching case and answers `Unknown command` without halting or touching
the state.  (A line may also merely contain the keyword elsewhere, e.g.
as an argument like `DEL END`; then it is handled by the named command,
not by `Unknown command`.) -/
theorem claim10_exact_keyword :
    (∀ (kalloc : Nat → Nat × Nat) (st : State) (l : List Nat),
      st.halted = false → to_upper_inplace l ≠ cs "END" →
      (process_line kalloc st l).1.halted = false) ∧
    (∀ (kalloc : Nat → Nat × Nat) (st : State) (l : List Nat) (a1 a2 : Option (List Nat)),
      st.halted = false →
      to_upper_inplace l ≠ cs "END" → to_upper_inplace l ≠ cs "PAGE" →
      (parse_cmdline (to_upper_inplace l) = some (cs "END", a1, a2) ∨
        parse_cmdline (to_upper_inplace l) = some (cs "PAGE", a1, a2)) →
      process_line kalloc st l = (st, cs "Unknown command\n> ")) := by
  constructor
  · intro kalloc st l hh hEND
    unfold process_line
    rw [if_neg (by simp [hh])]
    rw [user_input_keeps_halted kalloc st l hEND]
    exact hh
  · intro kalloc st l a1 a2 hh hEND hPAGE hp
    unfold process_line
    rw [if_neg (by simp [hh])]
    unfold user_input
    rw [if_neg hEND, if_neg hPAGE]
    have hout : cs "Unknown command\n" ++ cs "> " = cs "Unknown command\n> " := by decide
    rcases hp with hp | hp
    · simp only [hp, dispatch_unknown kalloc st.dir (cs "END") a1 a2
        (by decide) (by decide) (by decide) (by decide)]
      rw [hout]
    · simp only [hp, dispatch_unknown kalloc st.dir (cs "PAGE") a1 a2
        (by decide) (by decide) (by decide) (by decide)]
      rw [hout]

/-- C10 witness: ` END`, `END X` and `PAGE 1` all answer
`Unknown command` and leave the fresh machine unhalted and unchanged;
`DEL A` also leaves it unhalted. -/
theorem claim10_exact_keyword_witness :
    (process_line kallocOK initState (cs "DEL A")).1.halted = false ∧
    process_line kallocOK initState (cs " END") = (initState, cs "Unknown command\n> ") ∧
    process_line kallocOK initState (cs "END X") = (initState, cs "Unknown command\n> ") ∧
    process_line kallocOK initState (cs "PAGE 1") = (initState, cs "Unknown command\n> ") :=
  ⟨claim10_exact_keyword.1 kallocOK initState (cs "DEL A") rfl (by decide),
    claim10_exact_keyword.2 kallocOK initState (cs " END") none none rfl
      (by decide) (by decide) (Or.inl (by decide)),
    claim10_exact_keyword.2 kallocOK initState (cs "END X") (some (cs "X")) none rfl
      (by decide) (by decide) (Or.inl (by decide)),
    claim10_exact_keyword.2 kallocOK initState (cs "PAGE 1") (some (cs "1")) none rfl
      (by decide) (by decide) (Or.inr (by decide))⟩

/-- C10 counterexample: the claim quantifies over every line that
contains the keyword without equalling it, and asserts the output is
`Unknown command`; but `DEL END` contains `END`, is not equal to `END`,
and is answered by the `DEL` handler (`ERR: not found` on the fresh
directory), not by `Unknown command`. -/
theorem claim10_counterexample :
    cs "DEL END" = cs "DEL " ++ cs "END" ∧
    cs "DEL END" ≠ cs "END" ∧
    to_upper_inplace (cs "DEL END") = cs "DEL END" ∧
    (process_line kallocOK initState (cs "DEL END")).2 = cs "ERR: not found\n> " ∧
    cs "ERR: not found\n> " ≠ cs "Unknown command\n> " := by
  decide
